import Mathlib

/-!
Shallow embedding of the genetic-algorithm engine in `src/main.py`.

Modelling conventions:
* Python/numpy floats are rationals (`ℚ`), numpy arrays are lists.
* Every `np.random.*` / `random.*` draw is an explicit argument (a natural
  number, or a stream `ℕ → ℕ` when the code draws a sequence); the embedding
  maps the supplied draw into the documented range, so every outcome the
  library can produce corresponds to some argument value.
* Operations that raise a Python exception (`IndexError`, `ValueError`,
  shape mismatches) return `none`.
* The module-level constants of `main.py` are gathered into a `Config`
  record (`srcConfig` holds the literal shipped values), so the engine can
  also be examined at other table sizes.
-/

/-- Module-level data of `main.py`: `CROP_COSTS`, `FIELD_YIELDS`, `ALPHA`,
`BETA`. -/
structure Config where
  cropCosts : List ℚ
  fieldYields : List (List ℚ)
  alpha : ℚ
  beta : ℚ

/-- N_FIELDS = FIELD_YIELDS.shape[0]. -/
def Config.nFields (cfg : Config) : ℕ := cfg.fieldYields.length

/-- N_CROPS = len(CROPS); in the shipped tables this equals
len(CROP_COSTS), which is how it is read off here. -/
def Config.nCrops (cfg : Config) : ℕ := cfg.cropCosts.length

/-- The literal tables and weights of `main.py` (lines 7-25). -/
def srcConfig : Config where
  cropCosts := [30, 45, 25, 50, 40, 35]
  fieldYields := [
    [1.72, 4.13, 2.95, 3.47, 1.59, 4.88],
    [2.34, 3.21, 1.87, 4.45, 2.76, 3.99],
    [4.67, 1.98, 2.43, 3.88, 4.12, 1.34],
    [3.56, 2.67, 4.21, 1.76, 2.91, 3.44],
    [1.88, 4.55, 3.12, 2.34, 1.99, 4.01],
    [2.77, 3.89, 1.45, 4.67, 2.18, 3.22],
    [4.33, 2.12, 3.76, 1.54, 4.88, 2.65],
    [3.11, 1.67, 4.44, 2.23, 3.55, 1.88],
    [2.56, 4.22, 3.33, 1.99, 2.77, 4.66],
    [1.45, 3.88, 2.12, 4.55, 3.01, 2.34]]
  alpha := 0.6
  beta := 0.4

/-- Indexing a 1-d numpy array with a (possibly negative) integer index:
indices in `[-n, -1]` silently wrap around from the end, anything outside
`[-n, n)` raises `IndexError` (modelled as `none`). -/
def npGet (xs : List ℚ) (i : ℤ) : Option ℚ :=
  if 0 ≤ i then xs[i.toNat]?
  else if -(xs.length : ℤ) ≤ i then xs[(i + xs.length).toNat]?
  else none

/-- np.max over a 1-d array. np.max raises on an empty input; every array
it is applied to in `main.py` is non-empty, so the default value of `max?`
is never observed. -/
def npMax (xs : List ℚ) : ℚ := xs.max?.getD 0

/-- MAX_YIELD = np.sum(np.max(FIELD_YIELDS, axis=1)) (line 31). -/
def MAX_YIELD (cfg : Config) : ℚ := (cfg.fieldYields.map npMax).sum

/-- MAX_COST = N_FIELDS * np.max(CROP_COSTS) (line 32). -/
def MAX_COST (cfg : Config) : ℚ := (cfg.nFields : ℚ) * npMax cfg.cropCosts

/-- An `Individual`: the genome plus the three attributes cached by
`__init__`. -/
structure Individual where
  genome : List ℤ
  fitness : ℚ
  total_yield : ℚ
  total_cost : ℚ
deriving DecidableEq

/-- Elementwise traversal that fails as soon as one element fails, the way
a numpy fancy-indexing expression raises as soon as one index is bad. -/
def optMap {α β : Type} (f : α → Option β) : List α → Option (List β)
  | [] => some []
  | a :: t => do
    let b ← f a
    let bs ← optMap f t
    pure (b :: bs)

/-- FIELD_YIELDS[np.arange(N_FIELDS), genome]: advanced indexing demands
broadcast-compatible index arrays — the genome must have length N_FIELDS
(indexed pairwise) or length one (broadcast across all rows); any other
length raises. Each row is then indexed with the corresponding gene. -/
def rowsSelect (cfg : Config) (genome : List ℤ) : Option (List ℚ) :=
  if genome.length = cfg.nFields then
    optMap (fun rg => npGet rg.1 rg.2) (cfg.fieldYields.zip genome)
  else if genome.length = 1 then
    optMap (fun row => npGet row (genome.headD 0)) cfg.fieldYields
  else
    none

/-- Individual.calculate_fitness (lines 40-48): returns the triple
(score, total_yield, total_cost). -/
def calculate_fitness (cfg : Config) (genome : List ℤ) : Option (ℚ × ℚ × ℚ) := do
  let ys ← rowsSelect cfg genome
  let cs ← optMap (npGet cfg.cropCosts) genome
  let total_yield := ys.sum
  let total_cost := cs.sum
  let norm_yield := total_yield / MAX_YIELD cfg
  let norm_cost := total_cost / MAX_COST cfg
  pure (cfg.alpha * norm_yield - cfg.beta * norm_cost, total_yield, total_cost)

/-- Individual.__init__ (lines 36-38): stores the genome and the triple
returned by calculate_fitness; there is no validation of the genome. -/
def Individual.make (cfg : Config) (genome : List ℤ) : Option Individual :=
  (calculate_fitness cfg genome).map fun r => ⟨genome, r.1, r.2.1, r.2.2⟩

/-- np.random.randint(lo, hi) draws uniformly from [lo, hi); it raises
ValueError when lo >= hi. The draw is supplied as the natural number r;
every value of the range is reached by some r. -/
def randint (lo hi : ℤ) (r : ℕ) : Option ℤ :=
  if lo < hi then some (lo + (r : ℤ) % (hi - lo)) else none

/-- np.random.choice(n, 2, replace=False) draws two distinct indices from
[0, n); it raises ValueError when n < 2. The pair is derived from the two
supplied draws so that every distinct pair is reachable. -/
def choiceTwo (n : ℕ) (r1 r2 : ℕ) : Option (ℕ × ℕ) :=
  if 2 ≤ n then
    let i := r1 % n
    let k := r2 % (n - 1)
    some (i, if k < i then k else k + 1)
  else none

/-- Python slice l[a:b] (with the usual clamping, never raising). -/
def pySlice (l : List ℤ) (a b : ℕ) : List ℤ := (l.take b).drop a

/-- Numpy slice assignment l[a:b] = seg for a <= b; the caller guarantees
that seg has exactly the slice's length. -/
def setSlice (l : List ℤ) (a b : ℕ) (seg : List ℤ) : List ℤ :=
  l.take a ++ seg ++ l.drop b

/-- single_point_crossover (lines 62-66): point = np.random.randint(1,
N_FIELDS); the children are the two crossed concatenations, each passed to
Individual(..). -/
def single_point_crossover (cfg : Config) (parent1 parent2 : Individual) (r : ℕ) :
    Option (Individual × Individual) := do
  let point ← randint 1 (cfg.nFields : ℤ) r
  let i1 ← Individual.make cfg
    (parent1.genome.take point.toNat ++ parent2.genome.drop point.toNat)
  let i2 ← Individual.make cfg
    (parent2.genome.take point.toNat ++ parent1.genome.drop point.toNat)
  pure (i1, i2)

/-- two_point_crossover (lines 69-74): p1, p2 = sorted of two
np.random.randint(1, N_FIELDS) draws — drawn independently, with
replacement, so the two cut points may coincide; each child copies its own
parent and receives the other parent's [p1:p2] slice. The simultaneous
slice assignments need the two genomes to have equal length (numpy raises
on a length mismatch). -/
def two_point_crossover (cfg : Config) (parent1 parent2 : Individual) (r1 r2 : ℕ) :
    Option (Individual × Individual) := do
  let a ← randint 1 (cfg.nFields : ℤ) r1
  let b ← randint 1 (cfg.nFields : ℤ) r2
  if parent1.genome.length = parent2.genome.length then do
    let i1 ← Individual.make cfg (setSlice parent1.genome (min a.toNat b.toNat)
      (max a.toNat b.toNat) (pySlice parent2.genome (min a.toNat b.toNat) (max a.toNat b.toNat)))
    let i2 ← Individual.make cfg (setSlice parent2.genome (min a.toNat b.toNat)
      (max a.toNat b.toNat) (pySlice parent1.genome (min a.toNat b.toNat) (max a.toNat b.toNat)))
    pure (i1, i2)
  else none

/-- Elementwise np.where over equal-length arrays. -/
def npWhere : List Bool → List ℤ → List ℤ → List ℤ
  | m :: ms, x :: xs, y :: ys => (if m then x else y) :: npWhere ms xs ys
  | _, _, _ => []

/-- The boolean mask of uniform crossover: one np.random.randint(0, 2)
draw per gene position, cast to bool. -/
def uniformMask (n : ℕ) (rs : ℕ → ℕ) : List Bool :=
  (List.range n).map fun i => rs i % 2 == 1

/-- uniform_crossover (lines 77-81): a boolean mask of length N_FIELDS
(np.random.randint(0, 2) per position, astype(bool)); the children are the
two complementary np.where selections. np.where needs the three arrays to
share their shape, which the guard enforces (the scalar-broadcast corner of
np.where is not reachable from genomes built by this program). -/
def uniform_crossover (cfg : Config) (parent1 parent2 : Individual) (rs : ℕ → ℕ) :
    Option (Individual × Individual) :=
  if parent1.genome.length = cfg.nFields ∧ parent2.genome.length = cfg.nFields then do
    let i1 ← Individual.make cfg
      (npWhere (uniformMask cfg.nFields rs) parent1.genome parent2.genome)
    let i2 ← Individual.make cfg
      (npWhere (uniformMask cfg.nFields rs) parent2.genome parent1.genome)
    pure (i1, i2)
  else none

/-- random_reset (lines 84-88): genome = ind.genome.copy(); genome[pos] =
np.random.randint(N_CROPS); an out-of-range write raises IndexError. -/
def random_reset (cfg : Config) (ind : Individual) (r1 r2 : ℕ) : Option Individual := do
  let pos ← randint 0 (cfg.nFields : ℤ) r1
  let v ← randint 0 (cfg.nCrops : ℤ) r2
  if pos.toNat < ind.genome.length then
    Individual.make cfg (ind.genome.set pos.toNat v)
  else none

/-- swap_mutation (lines 91-95): i, j = np.random.choice(N_FIELDS, 2,
replace=False); the two genes are exchanged (the reads raise IndexError
when out of range). -/
def swap_mutation (cfg : Config) (ind : Individual) (r1 r2 : ℕ) : Option Individual := do
  let ij ← choiceTwo cfg.nFields r1 r2
  let gi ← ind.genome[ij.1]?
  let gj ← ind.genome[ij.2]?
  Individual.make cfg ((ind.genome.set ij.1 gj).set ij.2 gi)

/-- inversion_mutation (lines 98-102): i, j = sorted(np.random.choice(
N_FIELDS, 2, replace=False)); genome[i:j+1] is replaced by its reverse
(slicing clamps, so this never raises). -/
def inversion_mutation (cfg : Config) (ind : Individual) (r1 r2 : ℕ) : Option Individual := do
  let ij ← choiceTwo cfg.nFields r1 r2
  Individual.make cfg (setSlice ind.genome (min ij.1 ij.2) (max ij.1 ij.2 + 1)
    (pySlice ind.genome (min ij.1 ij.2) (max ij.1 ij.2 + 1)).reverse)

/-- random.sample draws k distinct positions one by one; the underlying
loop of sampleAux never runs out of elements when k is at most the pool
size, which randomSample checks. -/
def sampleAux (pool : List Individual) (k : ℕ) (rs : ℕ → ℕ) : List Individual :=
  match k with
  | 0 => []
  | k + 1 =>
    match pool[rs 0 % pool.length]? with
    | some x => x :: sampleAux (pool.eraseIdx (rs 0 % pool.length)) k fun t => rs (t + 1)
    | none => []

/-- random.sample(population, k): k distinct members, uniformly without
replacement; ValueError when k exceeds the population size. -/
def randomSample (pool : List Individual) (k : ℕ) (rs : ℕ → ℕ) :
    Option (List Individual) :=
  if k ≤ pool.length then some (sampleAux pool k rs) else none

/-- The descending-fitness order used by candidates.sort(key=lambda x:
x.fitness, reverse=True). -/
def fitterThan (a b : Individual) : Prop := b.fitness ≤ a.fitness

instance : DecidableRel fitterThan := fun a b =>
  inferInstanceAs (Decidable (b.fitness ≤ a.fitness))

instance : IsTotal Individual fitterThan :=
  ⟨fun a b => le_total b.fitness a.fitness⟩

instance : IsTrans Individual fitterThan :=
  ⟨fun _ _ _ h1 h2 => le_trans h2 h1⟩

/-- select_parents (lines 56-59): sample 5 individuals, sort by descending
fitness, return the top two. Python's list.sort is a stable sort, and a
stable sort for a decidable total preorder is unique, so it is embedded as
the (stable) insertion sort on `fitterThan`. -/
def select_parents (population : List Individual) (rs : ℕ → ℕ) :
    Option (Individual × Individual) := do
  let candidates ← randomSample population 5 rs
  match List.insertionSort fitterThan candidates with
  | c0 :: c1 :: _ => some (c0, c1)
  | _ => none

/-- The while-loop of evolve_population; `step` counts iterations so each
one sees fresh randomness, and the fuel only bounds the iteration count
(each pass appends two children, so `population.length + 1` passes always
suffice and the `none` of exhausted fuel is unreachable). -/
def evolveAux (population : List Individual)
    (crossover : ℕ → Individual → Individual → Option (Individual × Individual))
    (mutation : ℕ → Individual → Option Individual)
    (sel : ℕ → ℕ → ℕ) (pcs pms : ℕ → Bool) :
    ℕ → ℕ → List Individual → Option (List Individual)
  | 0, _, _ => none
  | fuel + 1, step, newPop =>
    if newPop.length < population.length then do
      let parents ← select_parents population (sel step)
      let children ←
        if pcs step then crossover step parents.1 parents.2
        else some (parents.1, parents.2)
      let c1 ← if pms (2 * step) then mutation (2 * step) children.1 else some children.1
      let c2 ← if pms (2 * step + 1) then mutation (2 * step + 1) children.2 else some children.2
      evolveAux population crossover mutation sel pcs pms fuel (step + 1) (newPop ++ [c1, c2])
    else
      some (newPop.take population.length)

/-- evolve_population (lines 105-127): repeatedly select two parents, with
probability pc cross them (else keep them), with probability pm mutate each
child, append the pair; once the new population reaches the input size,
truncate to exactly that size. The coin streams pcs and pms model the
random.random() comparisons; crossover and mutation are passed in just as
the Python Callables are, indexed by the draw position. -/
def evolve_population (population : List Individual)
    (crossover : ℕ → Individual → Individual → Option (Individual × Individual))
    (mutation : ℕ → Individual → Option Individual)
    (sel : ℕ → ℕ → ℕ) (pcs pms : ℕ → Bool) : Option (List Individual) :=
  evolveAux population crossover mutation sel pcs pms (population.length + 1) 0 []

/-- A genome the spec calls valid: length fieldCount, every gene in
[0, cropCount). -/
def ValidGenome (cfg : Config) (g : List ℤ) : Prop :=
  g.length = cfg.nFields ∧ ∀ x ∈ g, 0 ≤ x ∧ x < (cfg.nCrops : ℤ)

instance (cfg : Config) (g : List ℤ) : Decidable (ValidGenome cfg g) := by
  unfold ValidGenome
  infer_instance

/-- Spec-side totalYield: the sum over fields of fieldYield[f][genome[f]],
written directly from the spec's words for comparison with the code's
computation. -/
def specYield (cfg : Config) (g : List ℤ) : ℚ :=
  ((cfg.fieldYields.zip g).map fun rg => rg.1.getD rg.2.toNat 0).sum

/-- Spec-side totalCost: the sum over fields of cropCost[genome[f]]. -/
def specCost (cfg : Config) (g : List ℤ) : ℚ :=
  (g.map fun x => cfg.cropCosts.getD x.toNat 0).sum

/-- Dimension invariant of the yield matrix: every row is at least nCrops
wide, so a valid gene always indexes its row in bounds. -/
def RowsWide (cfg : Config) : Prop :=
  ∀ row ∈ cfg.fieldYields, cfg.nCrops ≤ row.length

instance (cfg : Config) : Decidable (RowsWide cfg) := by
  unfold RowsWide
  infer_instance

/-- A valid genome at the shipped tables, used by several witnesses. -/
def demoGenome : List ℤ := [0, 1, 2, 3, 4, 5, 0, 1, 2, 3]

/-- A concrete five-member population (only the fitness field matters for
selection) used by the C2 and C4 witnesses. -/
def demoPop : List Individual :=
  [⟨[0], 1, 0, 0⟩, ⟨[1], 3, 0, 0⟩, ⟨[2], 5, 0, 0⟩, ⟨[3], 2, 0, 0⟩, ⟨[4], 4, 0, 0⟩]

/-- Trivial crossover argument for the C2 witness run. -/
def demoCross : ℕ → Individual → Individual → Option (Individual × Individual) :=
  fun _ a b => some (a, b)

/-- Trivial mutation argument for the C2 witness run. -/
def demoMut : ℕ → Individual → Option Individual := fun _ a => some a

/-- A genome whose genes all lie outside [0, cropCount). -/
def negGenome : List ℤ := List.replicate 10 (-1)

/-- A one-field, two-crop configuration (the spec's degenerate scenario). -/
def cfg1 : Config := ⟨[10, 10], [[5, 5]], 1, 0⟩

unseal Rat.add Rat.mul Rat.inv Rat.sub in
/-- The single valid individual shape at cfg1: one field planted with
crop 0. -/
def indOne : Individual := (Individual.make cfg1 [0]).getD ⟨[], 0, 0, 0⟩

unseal Rat.add Rat.mul Rat.inv Rat.sub Rat.ofScientific in
/-- A second valid individual at the shipped tables for crossover
witnesses. -/
def demoIndA : Individual :=
  (Individual.make srcConfig [0, 0, 0, 0, 0, 0, 0, 0, 0, 0]).getD ⟨[], 0, 0, 0⟩

unseal Rat.add Rat.mul Rat.inv Rat.sub Rat.ofScientific in
/-- A third valid individual at the shipped tables for crossover
witnesses. -/
def demoIndB : Individual :=
  (Individual.make srcConfig [1, 1, 1, 1, 1, 1, 1, 1, 1, 1]).getD ⟨[], 0, 0, 0⟩

/-- The cut point np.random.randint(1, N_FIELDS) produces from draw r when
there are at least two fields. -/
def cutPoint (n r : ℕ) : ℕ := 1 + r % (n - 1)

unseal Rat.add Rat.mul Rat.inv Rat.sub Rat.ofScientific in
/-- The Individual the shipped tables produce from demoGenome. -/
def demoInd : Individual :=
  (Individual.make srcConfig demoGenome).getD ⟨[], 0, 0, 0⟩

/-- Arena of numpy arrays, addressed by allocation order. Mutation
operators work on mutable arrays, so the frame-effect claim (the input
individual is never modified) is stated against this explicit-state layer:
`.copy()` allocates a fresh array at the end of the arena and the in-place
writes of the operators name an address. -/
abbrev Heap := List (List ℤ)

/-- An Individual whose genome lives in the arena. Its scalar attributes
(fitness, total_yield, total_cost) are immutable record fields that no
operator rebinds; only arrays are mutable. -/
structure IndividualH where
  genomeAddr : ℕ
  fitness : ℚ
  total_yield : ℚ
  total_cost : ℚ
deriving DecidableEq

/-- Reading the array stored at an address. -/
def readArr (h : Heap) (a : ℕ) : List ℤ := h.getD a []

/-- Overwriting the array stored at an address. -/
def writeArr (h : Heap) (a : ℕ) (g : List ℤ) : Heap := h.set a g

/-- random_reset over the arena: genome = ind.genome.copy() allocates a
fresh array at address h.length holding the input's genes; the genome[pos]
write then hits only that copy, and the new Individual is built from it. -/
def random_resetH (cfg : Config) (h : Heap) (ind : IndividualH) (r1 r2 : ℕ) :
    Option (IndividualH × Heap) := do
  let pos ← randint 0 (cfg.nFields : ℤ) r1
  let v ← randint 0 (cfg.nCrops : ℤ) r2
  if pos.toNat < (readArr h ind.genomeAddr).length then do
    let fit ← calculate_fitness cfg ((readArr h ind.genomeAddr).set pos.toNat v)
    pure (⟨h.length, fit.1, fit.2.1, fit.2.2⟩,
      writeArr (h ++ [readArr h ind.genomeAddr]) h.length
        ((readArr h ind.genomeAddr).set pos.toNat v))
  else none

/-- swap_mutation over the arena: copy, then exchange the two chosen genes
inside the copy only. -/
def swap_mutationH (cfg : Config) (h : Heap) (ind : IndividualH) (r1 r2 : ℕ) :
    Option (IndividualH × Heap) := do
  let ij ← choiceTwo cfg.nFields r1 r2
  let gi ← (readArr h ind.genomeAddr)[ij.1]?
  let gj ← (readArr h ind.genomeAddr)[ij.2]?
  let fit ← calculate_fitness cfg
    (((readArr h ind.genomeAddr).set ij.1 gj).set ij.2 gi)
  pure (⟨h.length, fit.1, fit.2.1, fit.2.2⟩,
    writeArr (h ++ [readArr h ind.genomeAddr]) h.length
      (((readArr h ind.genomeAddr).set ij.1 gj).set ij.2 gi))

/-- inversion_mutation over the arena: copy, then reverse the chosen
inclusive slice inside the copy only. -/
def inversion_mutationH (cfg : Config) (h : Heap) (ind : IndividualH) (r1 r2 : ℕ) :
    Option (IndividualH × Heap) := do
  let ij ← choiceTwo cfg.nFields r1 r2
  let fit ← calculate_fitness cfg (setSlice (readArr h ind.genomeAddr)
    (min ij.1 ij.2) (max ij.1 ij.2 + 1)
    (pySlice (readArr h ind.genomeAddr) (min ij.1 ij.2) (max ij.1 ij.2 + 1)).reverse)
  pure (⟨h.length, fit.1, fit.2.1, fit.2.2⟩,
    writeArr (h ++ [readArr h ind.genomeAddr]) h.length
      (setSlice (readArr h ind.genomeAddr) (min ij.1 ij.2) (max ij.1 ij.2 + 1)
        (pySlice (readArr h ind.genomeAddr) (min ij.1 ij.2) (max ij.1 ij.2 + 1)).reverse))

/-- A one-array arena holding demoGenome at address 0. -/
def heap0 : Heap := [[0, 1, 2, 3, 4, 5, 0, 1, 2, 3]]

/-- The individual pointing at the arena's only array. -/
def indH0 : IndividualH := ⟨0, 0, 0, 0⟩

unseal Rat.add Rat.mul Rat.inv Rat.sub Rat.ofScientific in
/-- The concrete result of random_reset on the demo arena. -/
def rrOut : IndividualH × Heap :=
  (random_resetH srcConfig heap0 indH0 0 0).getD (⟨0, 0, 0, 0⟩, [])

unseal Rat.add Rat.mul Rat.inv Rat.sub Rat.ofScientific in
/-- The concrete result of swap_mutation on the demo arena. -/
def swOut : IndividualH × Heap :=
  (swap_mutationH srcConfig heap0 indH0 0 0).getD (⟨0, 0, 0, 0⟩, [])

unseal Rat.add Rat.mul Rat.inv Rat.sub Rat.ofScientific in
/-- The concrete result of inversion_mutation on the demo arena. -/
def invOut : IndividualH × Heap :=
  (inversion_mutationH srcConfig heap0 indH0 0 0).getD (⟨0, 0, 0, 0⟩, [])

theorem getElemOpt_isSome_iff {α : Type} (l : List α) (n : ℕ) :
    l[n]?.isSome = true ↔ n < l.length := by
  constructor
  · intro h
    by_contra hc
    rw [List.getElem?_eq_none (by omega)] at h
    simp at h
  · intro h
    rw [List.getElem?_eq_getElem h]
    rfl

theorem optMap_eq_some_map {α β : Type} (f : α → Option β) (g : α → β) :
    ∀ l : List α, (∀ x ∈ l, f x = some (g x)) → optMap f l = some (l.map g) := by
  intro l
  induction l with
  | nil => intro _; rfl
  | cons a t ih =>
    intro h
    unfold optMap
    rw [h a (by simp), ih fun x hx => h x (by simp [hx])]
    rfl

theorem optMap_isSome_iff {α β : Type} (f : α → Option β) :
    ∀ l : List α, (optMap f l).isSome = true ↔ ∀ x ∈ l, (f x).isSome = true := by
  intro l
  induction l with
  | nil => simp [optMap]
  | cons a t ih =>
    unfold optMap
    constructor
    · intro h
      cases hfa : f a with
      | none => rw [hfa] at h; simp at h
      | some b =>
        rw [hfa] at h
        cases hmt : optMap f t with
        | none => rw [hmt] at h; simp at h
        | some bs =>
          intro x hx
          rcases List.mem_cons.mp hx with rfl | hxt
          · simp [hfa]
          · exact (ih.mp (by simp [hmt])) x hxt
    · intro h
      rcases Option.isSome_iff_exists.mp (h a (by simp)) with ⟨b, hb⟩
      rcases Option.isSome_iff_exists.mp
        (ih.mpr fun x hx => h x (by simp [hx])) with ⟨bs, hbs⟩
      simp [hb, hbs]

theorem npGet_of_nonneg (xs : List ℚ) (i : ℤ) (h0 : 0 ≤ i) (hl : i < (xs.length : ℤ)) :
    npGet xs i = some (xs.getD i.toNat 0) := by
  unfold npGet
  rw [if_pos h0]
  have hlt : i.toNat < xs.length := (Int.toNat_lt h0).mpr hl
  rw [List.getElem?_eq_getElem hlt, List.getD_eq_getElem xs 0 hlt]

theorem npGet_isSome_iff (xs : List ℚ) (i : ℤ) :
    (npGet xs i).isSome = true ↔ -(xs.length : ℤ) ≤ i ∧ i < (xs.length : ℤ) := by
  unfold npGet
  by_cases h0 : 0 ≤ i
  · rw [if_pos h0, getElemOpt_isSome_iff]
    rw [Int.toNat_lt h0]
    constructor
    · intro h; exact ⟨by omega, h⟩
    · intro h; exact h.2
  · rw [if_neg h0]
    by_cases hw : -(xs.length : ℤ) ≤ i
    · rw [if_pos hw, getElemOpt_isSome_iff]
      constructor
      · intro _; exact ⟨hw, by omega⟩
      · intro _; omega
    · rw [if_neg hw]
      simp only [Option.isSome_none, Bool.false_eq_true, false_iff]
      intro h; exact hw h.1

theorem le_foldl_max (l : List ℚ) : ∀ a : ℚ, a ≤ l.foldl max a ∧ ∀ x ∈ l, x ≤ l.foldl max a := by
  induction l with
  | nil => intro a; exact ⟨le_refl a, by simp⟩
  | cons b t ih =>
    intro a
    have h1 := (ih (max a b)).1
    refine ⟨le_trans (le_max_left a b) h1, ?_⟩
    intro x hx
    rcases List.mem_cons.mp hx with rfl | hxt
    · exact le_trans (le_max_right a x) h1
    · exact (ih (max a b)).2 x hxt

theorem le_npMax_of_mem (l : List ℚ) (x : ℚ) (hx : x ∈ l) : x ≤ npMax l := by
  cases l with
  | nil => cases hx
  | cons a t =>
    unfold npMax
    have hmax : (a :: t).max? = some (t.foldl max a) := List.max?_cons'
    rw [hmax]
    rcases List.mem_cons.mp hx with rfl | hxt
    · exact (le_foldl_max t x).1
    · exact (le_foldl_max t a).2 x hxt

theorem npMax_nonneg (l : List ℚ) (h : ∀ x ∈ l, 0 ≤ x) : 0 ≤ npMax l := by
  cases l with
  | nil => exact le_refl 0
  | cons a t =>
    exact le_trans (h a (by simp)) (le_npMax_of_mem (a :: t) a (by simp))

theorem make_eq_of_valid (cfg : Config) (hrows : RowsWide cfg)
    (g : List ℤ) (hv : ValidGenome cfg g) :
    Individual.make cfg g = some ⟨g,
      cfg.alpha * (specYield cfg g / MAX_YIELD cfg)
        - cfg.beta * (specCost cfg g / MAX_COST cfg),
      specYield cfg g, specCost cfg g⟩ := by
  obtain ⟨hlen, hg⟩ := hv
  have hys : rowsSelect cfg g
      = some ((cfg.fieldYields.zip g).map fun rg => rg.1.getD rg.2.toNat 0) := by
    unfold rowsSelect
    rw [if_pos hlen]
    apply optMap_eq_some_map
    intro rg hrg
    obtain ⟨hr, hx⟩ := List.of_mem_zip hrg
    obtain ⟨hx0, hxlt⟩ := hg rg.2 hx
    apply npGet_of_nonneg _ _ hx0
    have hw := hrows rg.1 hr
    omega
  have hcs : optMap (npGet cfg.cropCosts) g
      = some (g.map fun x => cfg.cropCosts.getD x.toNat 0) := by
    apply optMap_eq_some_map
    intro x hx
    obtain ⟨hx0, hxlt⟩ := hg x hx
    exact npGet_of_nonneg _ _ hx0 hxlt
  unfold Individual.make calculate_fitness
  rw [hys, hcs]
  rfl

/-- C1: an Individual built from a valid genome caches exactly the spec's
totalYield (sum over fields of fieldYield[f][genome[f]]), totalCost (sum
over fields of cropCost[genome[f]]) and the fitness combination
alpha * totalYield/maxYield - beta * totalCost/maxCost; construction is a
pure function of the genome, so two Individuals made from the same genome
under the same tables carry identical cached triples. -/
theorem individual_fitness_formula (cfg : Config) (hrows : RowsWide cfg)
    (g : List ℤ) (hv : ValidGenome cfg g) :
    (∃ ind, Individual.make cfg g = some ind ∧
      ind.genome = g ∧
      ind.total_yield = specYield cfg g ∧
      ind.total_cost = specCost cfg g ∧
      ind.fitness = cfg.alpha * (ind.total_yield / MAX_YIELD cfg)
        - cfg.beta * (ind.total_cost / MAX_COST cfg)) ∧
    ∀ i1 i2, Individual.make cfg g = some i1 → Individual.make cfg g = some i2 →
      i1.total_yield = i2.total_yield ∧ i1.total_cost = i2.total_cost ∧
      i1.fitness = i2.fitness := by
  constructor
  · exact ⟨_, make_eq_of_valid cfg hrows g hv, rfl, rfl, rfl, rfl⟩
  · intro i1 i2 h1 h2
    rw [h1] at h2
    cases Option.some.inj h2
    exact ⟨rfl, rfl, rfl⟩

/-- Witness for C1: the theorem applied at the shipped tables and a
concrete valid genome. -/
theorem individual_fitness_formula_witness :
    RowsWide srcConfig ∧ ValidGenome srcConfig demoGenome ∧
    ((∃ ind, Individual.make srcConfig demoGenome = some ind ∧
      ind.genome = demoGenome ∧
      ind.total_yield = specYield srcConfig demoGenome ∧
      ind.total_cost = specCost srcConfig demoGenome ∧
      ind.fitness = srcConfig.alpha * (ind.total_yield / MAX_YIELD srcConfig)
        - srcConfig.beta * (ind.total_cost / MAX_COST srcConfig)) ∧
    ∀ i1 i2, Individual.make srcConfig demoGenome = some i1 →
      Individual.make srcConfig demoGenome = some i2 →
      i1.total_yield = i2.total_yield ∧ i1.total_cost = i2.total_cost ∧
      i1.fitness = i2.fitness) :=
  ⟨by decide, by decide,
    individual_fitness_formula srcConfig (by decide) demoGenome (by decide)⟩

theorem evolveAux_length (population : List Individual)
    (crossover : ℕ → Individual → Individual → Option (Individual × Individual))
    (mutation : ℕ → Individual → Option Individual)
    (sel : ℕ → ℕ → ℕ) (pcs pms : ℕ → Bool) :
    ∀ (fuel step : ℕ) (acc res : List Individual),
      evolveAux population crossover mutation sel pcs pms fuel step acc = some res →
      res.length = population.length := by
  intro fuel
  induction fuel with
  | zero =>
    intro step acc res h
    simp [evolveAux] at h
  | succ n ih =>
    intro step acc res h
    unfold evolveAux at h
    by_cases hlt : acc.length < population.length
    · rw [if_pos hlt] at h
      simp only [Option.bind_eq_bind] at h
      rw [Option.bind_eq_some] at h
      obtain ⟨parents, -, h⟩ := h
      split at h <;>
        · rw [Option.bind_eq_some] at h
          obtain ⟨children, -, h⟩ := h
          split at h <;>
            · rw [Option.bind_eq_some] at h
              obtain ⟨c1, -, h⟩ := h
              split at h <;>
                · rw [Option.bind_eq_some] at h
                  obtain ⟨c2, -, h⟩ := h
                  exact ih (step + 1) (acc ++ [c1, c2]) res h
    · rw [if_neg hlt] at h
      cases Option.some.inj h
      rw [List.length_take]
      omega

/-- C2: whatever operators and random draws are supplied, a call of
evolve_population that returns a population returns one of exactly the
input population's length (pairs of children are appended until the new
population is at least as long, then it is truncated). -/
theorem evolve_population_preserves_length (population : List Individual)
    (crossover : ℕ → Individual → Individual → Option (Individual × Individual))
    (mutation : ℕ → Individual → Option Individual)
    (sel : ℕ → ℕ → ℕ) (pcs pms : ℕ → Bool) (res : List Individual)
    (h : evolve_population population crossover mutation sel pcs pms = some res) :
    res.length = population.length :=
  evolveAux_length population crossover mutation sel pcs pms
    (population.length + 1) 0 [] res h

/-- Witness for C2: a fully evaluated run of the loop on a five-member
population returns exactly five members. -/
theorem evolve_population_preserves_length_witness :
    ((evolve_population demoPop demoCross demoMut (fun _ _ => 0)
        (fun _ => false) (fun _ => false)).getD []).length = demoPop.length :=
  evolve_population_preserves_length demoPop demoCross demoMut (fun _ _ => 0)
    (fun _ => false) (fun _ => false) _ (by decide)

theorem calculate_fitness_isSome_iff (cfg : Config) (g : List ℤ) :
    (calculate_fitness cfg g).isSome = true ↔
      (rowsSelect cfg g).isSome = true ∧
      (optMap (npGet cfg.cropCosts) g).isSome = true := by
  unfold calculate_fitness
  cases h1 : rowsSelect cfg g <;> cases h2 : optMap (npGet cfg.cropCosts) g <;>
    simp [Option.bind_eq_bind, h1, h2]

unseal Rat.add Rat.mul Rat.inv Rat.sub Rat.ofScientific in
/-- C9: the normalization constants of the shipped tables. MAX_YIELD is the
sum over fields of that field's maximum yield over the crops (npMax is both
a member of the row and an upper bound of it), MAX_COST is fieldCount times
the maximum single-crop cost, and both are strictly positive, so the
fitness normalization never divides by zero. -/
theorem normalization_constants :
    (∀ row ∈ srcConfig.fieldYields, npMax row ∈ row ∧ ∀ y ∈ row, y ≤ npMax row) ∧
    (npMax srcConfig.cropCosts ∈ srcConfig.cropCosts ∧
      ∀ c ∈ srcConfig.cropCosts, c ≤ npMax srcConfig.cropCosts) ∧
    MAX_YIELD srcConfig =
      (4.88 + 4.45 + 4.67 + 4.21 + 4.55 + 4.67 + 4.88 + 4.44 + 4.66 + 4.55 : ℚ) ∧
    MAX_YIELD srcConfig = 1149 / 25 ∧
    MAX_COST srcConfig = (srcConfig.nFields : ℚ) * npMax srcConfig.cropCosts ∧
    npMax srcConfig.cropCosts = 50 ∧
    MAX_COST srcConfig = 500 ∧
    0 < MAX_YIELD srcConfig ∧ 0 < MAX_COST srcConfig ∧
    1 ≤ srcConfig.nFields ∧ 1 ≤ srcConfig.nCrops := by decide

unseal Rat.add Rat.mul Rat.inv Rat.sub Rat.ofScientific in
/-- C5 counterexample: every gene of negGenome is negative, hence outside
[0, cropCount), yet Individual construction silently succeeds — numpy
wraps negative indices — and caches the last crop's cost for every field
(10 * 35 = 350). -/
theorem individual_make_accepts_invalid_genome :
    (∀ x ∈ negGenome, x < 0) ∧
    (Individual.make srcConfig negGenome).isSome = true ∧
    (Individual.make srcConfig negGenome).map Individual.total_cost = some 350 := by
  decide

/-- C5 amended: __init__ performs no validation at all. For a genome of
length fieldCount, construction succeeds exactly when every gene lies in
[-cropCount, cropCount) — negative genes silently wrap around — and a gene
outside that range surfaces as an unhandled IndexError, never as a typed
InvalidGenome condition. -/
theorem individual_make_success_iff (g : List ℤ)
    (hlen : g.length = srcConfig.nFields) :
    (Individual.make srcConfig g).isSome = true ↔
      ∀ x ∈ g, -(srcConfig.nCrops : ℤ) ≤ x ∧ x < (srcConfig.nCrops : ℤ) := by
  have hrowlen : ∀ row ∈ srcConfig.fieldYields, row.length = srcConfig.nCrops := by
    decide
  have hcc : srcConfig.cropCosts.length = srcConfig.nCrops := rfl
  have hmk : (Individual.make srcConfig g).isSome
      = (calculate_fitness srcConfig g).isSome := by
    unfold Individual.make
    cases calculate_fitness srcConfig g <;> rfl
  rw [hmk, calculate_fitness_isSome_iff]
  unfold rowsSelect
  rw [if_pos hlen, optMap_isSome_iff, optMap_isSome_iff]
  constructor
  · rintro ⟨-, hcs⟩ x hx
    have hx2 := (npGet_isSome_iff _ _).mp (hcs x hx)
    omega
  · intro hall
    constructor
    · intro rg hrg
      obtain ⟨hr, hx⟩ := List.of_mem_zip hrg
      rw [npGet_isSome_iff]
      have h6 := hrowlen rg.1 hr
      have hb := hall rg.2 hx
      omega
    · intro x hx
      rw [npGet_isSome_iff]
      have hb := hall x hx
      omega

unseal Rat.add Rat.mul Rat.inv Rat.sub Rat.ofScientific in
/-- Witness for the amended C5 at the all-negative genome: construction
succeeds and indeed every gene lies in the wrapped range. -/
theorem individual_make_success_iff_witness :
    negGenome.length = srcConfig.nFields ∧
    ((Individual.make srcConfig negGenome).isSome = true ↔
      ∀ x ∈ negGenome, -(srcConfig.nCrops : ℤ) ≤ x ∧ x < (srcConfig.nCrops : ℤ)) :=
  ⟨by decide, individual_make_success_iff negGenome (by decide)⟩

/-- C6 amended: with a single field there is no valid cut point and no
second distinct position, and the four operators raise — randint(1, 1) and
choice(1, 2, replace=False) are ValueErrors — instead of falling back to
returning their inputs unchanged; the shipped configuration has ten
fields, so the failing case is unreachable there. -/
theorem operators_fail_on_single_field (cfg : Config) (hn : cfg.nFields = 1)
    (p q ind : Individual) (r r1 r2 s1 s2 t1 t2 : ℕ) :
    single_point_crossover cfg p q r = none ∧
    two_point_crossover cfg p q r1 r2 = none ∧
    swap_mutation cfg ind s1 s2 = none ∧
    inversion_mutation cfg ind t1 t2 = none := by
  have hri : ∀ s : ℕ, randint 1 (cfg.nFields : ℤ) s = none := by
    intro s
    unfold randint
    rw [hn]
    norm_num
  have hct : ∀ u v : ℕ, choiceTwo cfg.nFields u v = none := by
    intro u v
    unfold choiceTwo
    rw [hn]
    norm_num
  refine ⟨?_, ?_, ?_, ?_⟩
  · unfold single_point_crossover
    rw [hri r]
    rfl
  · unfold two_point_crossover
    rw [hri r1]
    rfl
  · unfold swap_mutation
    rw [hct s1 s2]
    rfl
  · unfold inversion_mutation
    rw [hct t1 t2]
    rfl

unseal Rat.add Rat.mul Rat.inv Rat.sub in
/-- C6 counterexample: at fieldCount = 1 each of the four operators fails
with an error (none); in particular none of them returns its input parents
(respectively its input individual) unchanged. -/
theorem operators_single_field_no_fallback :
    single_point_crossover cfg1 indOne indOne 0 = none ∧
    two_point_crossover cfg1 indOne indOne 0 0 = none ∧
    swap_mutation cfg1 indOne 0 0 = none ∧
    inversion_mutation cfg1 indOne 0 0 = none ∧
    (none : Option (Individual × Individual)) ≠ some (indOne, indOne) ∧
    (none : Option Individual) ≠ some indOne := by decide

unseal Rat.add Rat.mul Rat.inv Rat.sub in
/-- Witness for the amended C6 at the concrete one-field configuration. -/
theorem operators_fail_on_single_field_witness :
    cfg1.nFields = 1 ∧
    (single_point_crossover cfg1 indOne indOne 1 = none ∧
     two_point_crossover cfg1 indOne indOne 1 1 = none ∧
     swap_mutation cfg1 indOne 1 1 = none ∧
     inversion_mutation cfg1 indOne 1 1 = none) :=
  ⟨rfl, operators_fail_on_single_field cfg1 rfl indOne indOne indOne 1 1 1 1 1 1 1⟩

theorem npWhere_length (m : List Bool) : ∀ a b : List ℤ,
    (npWhere m a b).length = min m.length (min a.length b.length) := by
  induction m with
  | nil => intro a b; cases a <;> cases b <;> simp [npWhere]
  | cons mh mt ih =>
    intro a b
    cases a with
    | nil => cases b <;> simp [npWhere]
    | cons x xs =>
      cases b with
      | nil => simp [npWhere]
      | cons y ys =>
        simp only [npWhere, List.length_cons, ih xs ys]
        omega

theorem npWhere_getD (m : List Bool) : ∀ (a b : List ℤ) (i : ℕ),
    i < m.length → i < a.length → i < b.length →
    (npWhere m a b).getD i 0 = if m.getD i false then a.getD i 0 else b.getD i 0 := by
  induction m with
  | nil =>
    intro a b i hm _ _
    simp at hm
  | cons mh mt ih =>
    intro a b i hm ha hb
    cases a with
    | nil => simp at ha
    | cons x xs =>
      cases b with
      | nil => simp at hb
      | cons y ys =>
        cases i with
        | zero => cases mh <;> simp [npWhere]
        | succ n =>
          simp only [npWhere, List.getD_cons_succ]
          exact ih xs ys n (by simpa using hm) (by simpa using ha) (by simpa using hb)

theorem npWhere_mem (m : List Bool) : ∀ (a b : List ℤ) (v : ℤ),
    v ∈ npWhere m a b → v ∈ a ∨ v ∈ b := by
  induction m with
  | nil => intro a b v hv; cases a <;> cases b <;> simp [npWhere] at hv
  | cons mh mt ih =>
    intro a b v hv
    cases a with
    | nil => simp [npWhere] at hv
    | cons x xs =>
      cases b with
      | nil => simp [npWhere] at hv
      | cons y ys =>
        rw [npWhere] at hv
        rcases List.mem_cons.mp hv with rfl | hvt
        · cases mh with
          | true => left; simp
          | false => right; simp
        · rcases ih xs ys v hvt with hx | hy
          · left; exact List.mem_cons_of_mem x hx
          · right; exact List.mem_cons_of_mem y hy

theorem valid_npWhere (cfg : Config) (mask : List Bool) (a b : List ℤ)
    (hva : ValidGenome cfg a) (hvb : ValidGenome cfg b)
    (hm : mask.length = cfg.nFields) : ValidGenome cfg (npWhere mask a b) := by
  obtain ⟨hla, hga⟩ := hva
  obtain ⟨hlb, hgb⟩ := hvb
  constructor
  · rw [npWhere_length, hla, hlb, hm]
    omega
  · intro v hv
    rcases npWhere_mem mask a b v hv with hx | hy
    · exact hga v hx
    · exact hgb v hy

/-- C7: for every pair of valid parents and every drawn coin mask, uniform
crossover returns two children that are complementary at every gene
position: one child carries parent1's gene there and the other carries
parent2's gene there. -/
theorem uniform_crossover_complementary (cfg : Config) (hrows : RowsWide cfg)
    (p1 p2 : Individual) (rs : ℕ → ℕ)
    (h1 : ValidGenome cfg p1.genome) (h2 : ValidGenome cfg p2.genome) :
    ∃ c1 c2, uniform_crossover cfg p1 p2 rs = some (c1, c2) ∧
      c1.genome.length = cfg.nFields ∧ c2.genome.length = cfg.nFields ∧
      ∀ i, i < cfg.nFields →
        (c1.genome.getD i 0 = p1.genome.getD i 0 ∧
         c2.genome.getD i 0 = p2.genome.getD i 0) ∨
        (c1.genome.getD i 0 = p2.genome.getD i 0 ∧
         c2.genome.getD i 0 = p1.genome.getD i 0) := by
  have hmlen : (uniformMask cfg.nFields rs).length = cfg.nFields := by
    simp [uniformMask]
  have hv1 : ValidGenome cfg (npWhere (uniformMask cfg.nFields rs) p1.genome p2.genome) :=
    valid_npWhere cfg _ _ _ h1 h2 hmlen
  have hv2 : ValidGenome cfg (npWhere (uniformMask cfg.nFields rs) p2.genome p1.genome) :=
    valid_npWhere cfg _ _ _ h2 h1 hmlen
  obtain ⟨c1, hmk1, hg1⟩ :
      ∃ c, Individual.make cfg
        (npWhere (uniformMask cfg.nFields rs) p1.genome p2.genome) = some c ∧
        c.genome = npWhere (uniformMask cfg.nFields rs) p1.genome p2.genome :=
    ⟨_, make_eq_of_valid cfg hrows _ hv1, rfl⟩
  obtain ⟨c2, hmk2, hg2⟩ :
      ∃ c, Individual.make cfg
        (npWhere (uniformMask cfg.nFields rs) p2.genome p1.genome) = some c ∧
        c.genome = npWhere (uniformMask cfg.nFields rs) p2.genome p1.genome :=
    ⟨_, make_eq_of_valid cfg hrows _ hv2, rfl⟩
  refine ⟨c1, c2, ?_, ?_, ?_, ?_⟩
  · unfold uniform_crossover
    rw [if_pos ⟨h1.1, h2.1⟩, hmk1, hmk2]
    rfl
  · rw [hg1]; exact hv1.1
  · rw [hg2]; exact hv2.1
  · intro i hi
    have ga := npWhere_getD (uniformMask cfg.nFields rs) p1.genome p2.genome i
      (by rw [hmlen]; exact hi) (by rw [h1.1]; exact hi) (by rw [h2.1]; exact hi)
    have gb := npWhere_getD (uniformMask cfg.nFields rs) p2.genome p1.genome i
      (by rw [hmlen]; exact hi) (by rw [h2.1]; exact hi) (by rw [h1.1]; exact hi)
    rw [hg1, hg2]
    by_cases hmv : (uniformMask cfg.nFields rs).getD i false = true
    · left
      rw [ga, gb, if_pos hmv, if_pos hmv]
      exact ⟨rfl, rfl⟩
    · right
      rw [ga, gb, if_neg hmv, if_neg hmv]
      exact ⟨rfl, rfl⟩

unseal Rat.add Rat.mul Rat.inv Rat.sub Rat.ofScientific in
/-- Witness for C7 at the shipped tables and an alternating coin stream. -/
theorem uniform_crossover_complementary_witness :
    RowsWide srcConfig ∧ ValidGenome srcConfig demoIndA.genome ∧
    ValidGenome srcConfig demoIndB.genome ∧
    (∃ c1 c2, uniform_crossover srcConfig demoIndA demoIndB (fun i => i) = some (c1, c2) ∧
      c1.genome.length = srcConfig.nFields ∧ c2.genome.length = srcConfig.nFields ∧
      ∀ i, i < srcConfig.nFields →
        (c1.genome.getD i 0 = demoIndA.genome.getD i 0 ∧
         c2.genome.getD i 0 = demoIndB.genome.getD i 0) ∨
        (c1.genome.getD i 0 = demoIndB.genome.getD i 0 ∧
         c2.genome.getD i 0 = demoIndA.genome.getD i 0)) :=
  ⟨by decide, by decide, by decide,
    uniform_crossover_complementary srcConfig (by decide) demoIndA demoIndB
      (fun i => i) (by decide) (by decide)⟩

theorem pySlice_length (l : List ℤ) (a b : ℕ) :
    (pySlice l a b).length = min b l.length - a := by
  unfold pySlice
  simp [List.length_drop, List.length_take]

theorem pySlice_getD (l : List ℤ) (a b k : ℕ) (hk : k < min b l.length - a) :
    (pySlice l a b).getD k 0 = l.getD (a + k) 0 := by
  unfold pySlice
  rw [List.getD_eq_getElem?_getD, List.getD_eq_getElem?_getD, List.getElem?_drop,
    List.getElem?_take, if_pos (by omega)]

theorem pySlice_mem (l : List ℤ) (a b : ℕ) (v : ℤ) (hv : v ∈ pySlice l a b) : v ∈ l :=
  List.mem_of_mem_take (List.mem_of_mem_drop hv)

theorem setSlice_length (l seg : List ℤ) (a b : ℕ) (hab : a ≤ b) (hbl : b ≤ l.length)
    (hseg : seg.length = b - a) : (setSlice l a b seg).length = l.length := by
  unfold setSlice
  simp only [List.length_append, List.length_take, List.length_drop]
  omega

theorem setSlice_mem (l seg : List ℤ) (a b : ℕ) (v : ℤ)
    (hv : v ∈ setSlice l a b seg) : v ∈ l ∨ v ∈ seg := by
  unfold setSlice at hv
  rcases List.mem_append.mp hv with hv1 | hv2
  · rcases List.mem_append.mp hv1 with hvt | hvs
    · exact Or.inl (List.mem_of_mem_take hvt)
    · exact Or.inr hvs
  · exact Or.inl (List.mem_of_mem_drop hv2)

theorem setSlice_getD (l seg : List ℤ) (a b i : ℕ) (hab : a ≤ b) (hbl : b ≤ l.length)
    (hseg : seg.length = b - a) :
    (setSlice l a b seg).getD i 0 =
      if a ≤ i ∧ i < b then seg.getD (i - a) 0 else l.getD i 0 := by
  unfold setSlice
  have hta : (l.take a).length = a := by
    rw [List.length_take]
    omega
  by_cases h1 : i < a
  · rw [if_neg (by omega)]
    rw [List.getD_eq_getElem?_getD, List.getD_eq_getElem?_getD]
    rw [List.getElem?_append_left (by rw [List.length_append, hta]; omega),
      List.getElem?_append_left (by rw [hta]; omega),
      List.getElem?_take, if_pos h1]
  · by_cases h2 : i < b
    · rw [if_pos ⟨by omega, h2⟩]
      rw [List.getD_eq_getElem?_getD, List.getD_eq_getElem?_getD]
      rw [List.getElem?_append_left (by rw [List.length_append, hta]; omega),
        List.getElem?_append_right (by rw [hta]; omega), hta]
    · rw [if_neg (by omega)]
      rw [List.getD_eq_getElem?_getD, List.getD_eq_getElem?_getD]
      have hlen2 : (l.take a ++ seg).length = b := by
        rw [List.length_append, hta]
        omega
      rw [List.getElem?_append_right (by rw [hlen2]; omega), hlen2, List.getElem?_drop,
        Nat.add_sub_cancel' (show b ≤ i by omega)]

theorem randint_one_eq (n : ℕ) (hn : 2 ≤ n) (r : ℕ) :
    randint 1 (n : ℤ) r = some ((cutPoint n r : ℕ) : ℤ) := by
  unfold randint cutPoint
  rw [if_pos (by exact_mod_cast (by omega : (1:ℕ) < n))]
  congr 1
  have hn1 : 1 ≤ n := by omega
  push_cast [Nat.cast_sub hn1]
  ring

theorem cutPoint_bounds (n r : ℕ) (hn : 2 ≤ n) :
    1 ≤ cutPoint n r ∧ cutPoint n r ≤ n - 1 := by
  unfold cutPoint
  have hlt := Nat.mod_lt r (show 0 < n - 1 by omega)
  omega

theorem valid_setSlice_pySlice (cfg : Config) (g1 g2 : List ℤ) (a b : ℕ)
    (hv1 : ValidGenome cfg g1) (hv2 : ValidGenome cfg g2)
    (hab : a ≤ b) (hbl : b ≤ cfg.nFields) :
    ValidGenome cfg (setSlice g1 a b (pySlice g2 a b)) := by
  obtain ⟨hl1, hg1⟩ := hv1
  obtain ⟨hl2, hg2⟩ := hv2
  have hseg : (pySlice g2 a b).length = b - a := by
    rw [pySlice_length, hl2]
    omega
  constructor
  · rw [setSlice_length g1 _ a b hab (by omega) hseg, hl1]
  · intro v hv
    rcases setSlice_mem g1 _ a b v hv with hvl | hvs
    · exact hg1 v hvl
    · exact hg2 v (pySlice_mem g2 a b v hvs)

/-- C3 amended: two-point crossover draws its two cut points independently
(with replacement, so they may coincide — when they do the swapped segment
[p1, p2) is empty and both children equal their parents); the points lie in
[1, fieldCount-1], are sorted, and each child copies its own parent with
the half-open segment [p1, p2) replaced by the other parent's genes. -/
theorem two_point_crossover_spec (cfg : Config) (hrows : RowsWide cfg)
    (p1 p2 : Individual) (r1 r2 : ℕ)
    (h1 : ValidGenome cfg p1.genome) (h2 : ValidGenome cfg p2.genome)
    (hn : 2 ≤ cfg.nFields) :
    randint 1 (cfg.nFields : ℤ) r1 = some ((cutPoint cfg.nFields r1 : ℕ) : ℤ) ∧
    randint 1 (cfg.nFields : ℤ) r2 = some ((cutPoint cfg.nFields r2 : ℕ) : ℤ) ∧
    1 ≤ min (cutPoint cfg.nFields r1) (cutPoint cfg.nFields r2) ∧
    max (cutPoint cfg.nFields r1) (cutPoint cfg.nFields r2) ≤ cfg.nFields - 1 ∧
    ∃ c1 c2, two_point_crossover cfg p1 p2 r1 r2 = some (c1, c2) ∧
      c1.genome.length = cfg.nFields ∧ c2.genome.length = cfg.nFields ∧
      ∀ i, i < cfg.nFields →
        (c1.genome.getD i 0 =
          if min (cutPoint cfg.nFields r1) (cutPoint cfg.nFields r2) ≤ i ∧
              i < max (cutPoint cfg.nFields r1) (cutPoint cfg.nFields r2)
            then p2.genome.getD i 0 else p1.genome.getD i 0) ∧
        (c2.genome.getD i 0 =
          if min (cutPoint cfg.nFields r1) (cutPoint cfg.nFields r2) ≤ i ∧
              i < max (cutPoint cfg.nFields r1) (cutPoint cfg.nFields r2)
            then p1.genome.getD i 0 else p2.genome.getD i 0) := by
  have hb1 := cutPoint_bounds cfg.nFields r1 hn
  have hb2 := cutPoint_bounds cfg.nFields r2 hn
  have hq12 : min (cutPoint cfg.nFields r1) (cutPoint cfg.nFields r2)
      ≤ max (cutPoint cfg.nFields r1) (cutPoint cfg.nFields r2) := min_le_max
  have hqn : max (cutPoint cfg.nFields r1) (cutPoint cfg.nFields r2) ≤ cfg.nFields := by
    omega
  have hv1 : ValidGenome cfg (setSlice p1.genome
      (min (cutPoint cfg.nFields r1) (cutPoint cfg.nFields r2))
      (max (cutPoint cfg.nFields r1) (cutPoint cfg.nFields r2))
      (pySlice p2.genome (min (cutPoint cfg.nFields r1) (cutPoint cfg.nFields r2))
        (max (cutPoint cfg.nFields r1) (cutPoint cfg.nFields r2)))) :=
    valid_setSlice_pySlice cfg p1.genome p2.genome _ _ h1 h2 hq12 hqn
  have hv2 : ValidGenome cfg (setSlice p2.genome
      (min (cutPoint cfg.nFields r1) (cutPoint cfg.nFields r2))
      (max (cutPoint cfg.nFields r1) (cutPoint cfg.nFields r2))
      (pySlice p1.genome (min (cutPoint cfg.nFields r1) (cutPoint cfg.nFields r2))
        (max (cutPoint cfg.nFields r1) (cutPoint cfg.nFields r2)))) :=
    valid_setSlice_pySlice cfg p2.genome p1.genome _ _ h2 h1 hq12 hqn
  obtain ⟨c1, hmk1, hg1⟩ :
      ∃ c, Individual.make cfg (setSlice p1.genome
        (min (cutPoint cfg.nFields r1) (cutPoint cfg.nFields r2))
        (max (cutPoint cfg.nFields r1) (cutPoint cfg.nFields r2))
        (pySlice p2.genome (min (cutPoint cfg.nFields r1) (cutPoint cfg.nFields r2))
          (max (cutPoint cfg.nFields r1) (cutPoint cfg.nFields r2)))) = some c ∧
        c.genome = setSlice p1.genome
          (min (cutPoint cfg.nFields r1) (cutPoint cfg.nFields r2))
          (max (cutPoint cfg.nFields r1) (cutPoint cfg.nFields r2))
          (pySlice p2.genome (min (cutPoint cfg.nFields r1) (cutPoint cfg.nFields r2))
            (max (cutPoint cfg.nFields r1) (cutPoint cfg.nFields r2))) :=
    ⟨_, make_eq_of_valid cfg hrows _ hv1, rfl⟩
  obtain ⟨c2, hmk2, hg2⟩ :
      ∃ c, Individual.make cfg (setSlice p2.genome
        (min (cutPoint cfg.nFields r1) (cutPoint cfg.nFields r2))
        (max (cutPoint cfg.nFields r1) (cutPoint cfg.nFields r2))
        (pySlice p1.genome (min (cutPoint cfg.nFields r1) (cutPoint cfg.nFields r2))
          (max (cutPoint cfg.nFields r1) (cutPoint cfg.nFields r2)))) = some c ∧
        c.genome = setSlice p2.genome
          (min (cutPoint cfg.nFields r1) (cutPoint cfg.nFields r2))
          (max (cutPoint cfg.nFields r1) (cutPoint cfg.nFields r2))
          (pySlice p1.genome (min (cutPoint cfg.nFields r1) (cutPoint cfg.nFields r2))
            (max (cutPoint cfg.nFields r1) (cutPoint cfg.nFields r2))) :=
    ⟨_, make_eq_of_valid cfg hrows _ hv2, rfl⟩
  refine ⟨randint_one_eq cfg.nFields hn r1, randint_one_eq cfg.nFields hn r2,
    by omega, by omega, c1, c2, ?_, ?_, ?_, ?_⟩
  · unfold two_point_crossover
    rw [randint_one_eq cfg.nFields hn r1, randint_one_eq cfg.nFields hn r2]
    simp only [Option.bind_eq_bind, Option.some_bind, Int.toNat_natCast]
    rw [if_pos (show p1.genome.length = p2.genome.length by rw [h1.1, h2.1]), hmk1, hmk2]
    rfl
  · rw [hg1]
    rw [setSlice_length p1.genome _ _ _ hq12 (by rw [h1.1]; omega)
      (by rw [pySlice_length, h2.1]; omega), h1.1]
  · rw [hg2]
    rw [setSlice_length p2.genome _ _ _ hq12 (by rw [h2.1]; omega)
      (by rw [pySlice_length, h1.1]; omega), h2.1]
  · intro i hi
    have ga := setSlice_getD p1.genome
      (pySlice p2.genome (min (cutPoint cfg.nFields r1) (cutPoint cfg.nFields r2))
        (max (cutPoint cfg.nFields r1) (cutPoint cfg.nFields r2)))
      (min (cutPoint cfg.nFields r1) (cutPoint cfg.nFields r2))
      (max (cutPoint cfg.nFields r1) (cutPoint cfg.nFields r2)) i hq12
      (by rw [h1.1]; omega) (by rw [pySlice_length, h2.1]; omega)
    have gb := setSlice_getD p2.genome
      (pySlice p1.genome (min (cutPoint cfg.nFields r1) (cutPoint cfg.nFields r2))
        (max (cutPoint cfg.nFields r1) (cutPoint cfg.nFields r2)))
      (min (cutPoint cfg.nFields r1) (cutPoint cfg.nFields r2))
      (max (cutPoint cfg.nFields r1) (cutPoint cfg.nFields r2)) i hq12
      (by rw [h2.1]; omega) (by rw [pySlice_length, h1.1]; omega)
    rw [hg1, hg2, ga, gb]
    by_cases hins : min (cutPoint cfg.nFields r1) (cutPoint cfg.nFields r2) ≤ i ∧
        i < max (cutPoint cfg.nFields r1) (cutPoint cfg.nFields r2)
    · rw [if_pos hins, if_pos hins, if_pos hins, if_pos hins,
        pySlice_getD p2.genome _ _ _ (by rw [h2.1]; omega),
        pySlice_getD p1.genome _ _ _ (by rw [h1.1]; omega),
        Nat.add_sub_cancel' hins.1]
      exact ⟨rfl, rfl⟩
    · rw [if_neg hins, if_neg hins, if_neg hins, if_neg hins]
      exact ⟨rfl, rfl⟩

unseal Rat.add Rat.mul Rat.inv Rat.sub Rat.ofScientific in
/-- C3 counterexample: with the draw value 2 supplied twice, both cut
points evaluate to 3 — the two drawn cut points are not distinct — and the
swapped segment [3, 3) is empty, so both children's genomes equal their
parents' genomes unchanged. -/
theorem two_point_crossover_coincident_cuts :
    randint 1 (srcConfig.nFields : ℤ) 2 = some 3 ∧
    (two_point_crossover srcConfig demoIndA demoIndB 2 2).map
      (fun c => (c.1.genome, c.2.genome)) = some (demoIndA.genome, demoIndB.genome) ∧
    demoIndA.genome ≠ demoIndB.genome := by decide

unseal Rat.add Rat.mul Rat.inv Rat.sub Rat.ofScientific in
/-- Witness for the amended C3 at the shipped tables, with draws giving the
distinct sorted cut points 1 and 5. -/
theorem two_point_crossover_spec_witness :
    RowsWide srcConfig ∧ ValidGenome srcConfig demoIndA.genome ∧
    ValidGenome srcConfig demoIndB.genome ∧ 2 ≤ srcConfig.nFields ∧
    (randint 1 (srcConfig.nFields : ℤ) 0
        = some ((cutPoint srcConfig.nFields 0 : ℕ) : ℤ) ∧
      randint 1 (srcConfig.nFields : ℤ) 4
        = some ((cutPoint srcConfig.nFields 4 : ℕ) : ℤ) ∧
      1 ≤ min (cutPoint srcConfig.nFields 0) (cutPoint srcConfig.nFields 4) ∧
      max (cutPoint srcConfig.nFields 0) (cutPoint srcConfig.nFields 4)
        ≤ srcConfig.nFields - 1 ∧
      ∃ c1 c2, two_point_crossover srcConfig demoIndA demoIndB 0 4 = some (c1, c2) ∧
        c1.genome.length = srcConfig.nFields ∧ c2.genome.length = srcConfig.nFields ∧
        ∀ i, i < srcConfig.nFields →
          (c1.genome.getD i 0 =
            if min (cutPoint srcConfig.nFields 0) (cutPoint srcConfig.nFields 4) ≤ i ∧
                i < max (cutPoint srcConfig.nFields 0) (cutPoint srcConfig.nFields 4)
              then demoIndB.genome.getD i 0 else demoIndA.genome.getD i 0) ∧
          (c2.genome.getD i 0 =
            if min (cutPoint srcConfig.nFields 0) (cutPoint srcConfig.nFields 4) ≤ i ∧
                i < max (cutPoint srcConfig.nFields 0) (cutPoint srcConfig.nFields 4)
              then demoIndA.genome.getD i 0 else demoIndB.genome.getD i 0)) :=
  ⟨by decide, by decide, by decide, by decide,
    two_point_crossover_spec srcConfig (by decide) demoIndA demoIndB 0 4
      (by decide) (by decide) (by decide)⟩

theorem perm_getElem_cons_eraseIdx (l : List Individual) (i : ℕ) (hi : i < l.length) :
    l.Perm (l[i] :: l.eraseIdx i) := by
  rw [List.eraseIdx_eq_take_drop_succ]
  conv_lhs => rw [← List.take_append_drop i l, List.drop_eq_getElem_cons hi]
  exact List.perm_middle

theorem sampleAux_perm : ∀ (k : ℕ) (pool : List Individual) (rs : ℕ → ℕ),
    k = pool.length → (sampleAux pool k rs).Perm pool := by
  intro k
  induction k with
  | zero =>
    intro pool rs h
    have hnil : pool = [] := List.length_eq_zero.mp h.symm
    subst hnil
    simp [sampleAux]
  | succ n ih =>
    intro pool rs h
    have hlen : 0 < pool.length := by omega
    have hi : rs 0 % pool.length < pool.length := Nat.mod_lt _ hlen
    unfold sampleAux
    rw [List.getElem?_eq_getElem hi]
    have hperm := ih (pool.eraseIdx (rs 0 % pool.length)) (fun t => rs (t + 1))
      (by rw [List.length_eraseIdx, if_pos hi]; omega)
    exact (hperm.cons _).trans (perm_getElem_cons_eraseIdx pool _ hi).symm

/-- C4: select_parents samples five members without replacement, sorts them
by descending fitness and returns the top two; when the population itself
has exactly five members the sample is a permutation of the whole
population, so the returned pair are the two globally fittest individuals:
parent1 is at least as fit as everyone, and the rest of the population
besides the returned pair is at most as fit as parent2. -/
theorem select_parents_full_tournament (pop : List Individual) (rs : ℕ → ℕ)
    (h5 : pop.length = 5) (c0 c1 : Individual)
    (hsel : select_parents pop rs = some (c0, c1)) :
    (∀ x ∈ pop, x.fitness ≤ c0.fitness) ∧
    ∃ rest, pop.Perm (c0 :: c1 :: rest) ∧ ∀ x ∈ rest, x.fitness ≤ c1.fitness := by
  unfold select_parents randomSample at hsel
  rw [if_pos (by omega)] at hsel
  simp only [Option.bind_eq_bind, Option.some_bind] at hsel
  have hperm : (sampleAux pop 5 rs).Perm pop := sampleAux_perm 5 pop rs h5.symm
  have hsorted : List.Sorted fitterThan
      (List.insertionSort fitterThan (sampleAux pop 5 rs)) :=
    List.sorted_insertionSort fitterThan (sampleAux pop 5 rs)
  have hsperm : (List.insertionSort fitterThan (sampleAux pop 5 rs)).Perm pop :=
    (List.perm_insertionSort fitterThan (sampleAux pop 5 rs)).trans hperm
  have hslen : (List.insertionSort fitterThan (sampleAux pop 5 rs)).length = 5 := by
    rw [hsperm.length_eq, h5]
  cases hs : List.insertionSort fitterThan (sampleAux pop 5 rs) with
  | nil => rw [hs] at hslen; simp at hslen
  | cons a t1 =>
    cases t1 with
    | nil => rw [hs] at hslen; simp at hslen
    | cons b t =>
      rw [hs] at hsel hsorted hsperm
      have hab : (a, b) = (c0, c1) := Option.some.inj hsel
      obtain ⟨h3, h4⟩ := Prod.ext_iff.mp hab
      subst h3
      subst h4
      constructor
      · intro x hx
        rcases List.mem_cons.mp (hsperm.mem_iff.mpr hx) with rfl | hx3
        · exact le_refl _
        · exact List.rel_of_sorted_cons hsorted x hx3
      · refine ⟨t, hsperm.symm, ?_⟩
        intro x hx
        exact List.rel_of_sorted_cons hsorted.of_cons x hx

/-- Witness for C4: on the concrete five-member population the returned
pair are the fitness-5 and fitness-4 individuals. -/
theorem select_parents_full_tournament_witness :
    demoPop.length = 5 ∧
    select_parents demoPop (fun _ => 0)
      = some (⟨[2], 5, 0, 0⟩, ⟨[4], 4, 0, 0⟩) ∧
    ((∀ x ∈ demoPop, x.fitness ≤ (⟨[2], 5, 0, 0⟩ : Individual).fitness) ∧
      ∃ rest, demoPop.Perm (⟨[2], 5, 0, 0⟩ :: ⟨[4], 4, 0, 0⟩ :: rest) ∧
        ∀ x ∈ rest, x.fitness ≤ (⟨[4], 4, 0, 0⟩ : Individual).fitness) :=
  ⟨by decide, by decide,
    select_parents_full_tournament demoPop (fun _ => 0) (by decide) _ _ (by decide)⟩

theorem specYield_nonneg (cfg : Config) (hrows : RowsWide cfg) (g : List ℤ)
    (hv : ValidGenome cfg g)
    (hY : ∀ row ∈ cfg.fieldYields, ∀ y ∈ row, 0 ≤ y) : 0 ≤ specYield cfg g := by
  unfold specYield
  apply List.sum_nonneg
  intro q hq
  obtain ⟨rg, hrg, rfl⟩ := List.mem_map.mp hq
  obtain ⟨hr, hx⟩ := List.of_mem_zip hrg
  obtain ⟨hx0, hxlt⟩ := hv.2 rg.2 hx
  have hlen := hrows rg.1 hr
  have hidx : rg.2.toNat < rg.1.length := by omega
  rw [List.getD_eq_getElem _ _ hidx]
  exact hY rg.1 hr _ (List.getElem_mem hidx)

theorem specYield_le (cfg : Config) (hrows : RowsWide cfg) (g : List ℤ)
    (hv : ValidGenome cfg g) : specYield cfg g ≤ MAX_YIELD cfg := by
  unfold specYield MAX_YIELD
  have hz : cfg.fieldYields.map npMax
      = (cfg.fieldYields.zip g).map fun rg => npMax rg.1 := by
    have h1 : ((cfg.fieldYields.zip g).map fun rg => npMax rg.1)
        = ((cfg.fieldYields.zip g).map Prod.fst).map npMax := by
      rw [List.map_map]
      rfl
    rw [h1, List.map_fst_zip _ _ (le_of_eq (by rw [hv.1]; rfl))]
  rw [hz]
  apply List.sum_le_sum
  intro rg hrg
  obtain ⟨hr, hx⟩ := List.of_mem_zip hrg
  obtain ⟨hx0, hxlt⟩ := hv.2 rg.2 hx
  have hlen := hrows rg.1 hr
  have hidx : rg.2.toNat < rg.1.length := by omega
  rw [List.getD_eq_getElem _ _ hidx]
  exact le_npMax_of_mem rg.1 _ (List.getElem_mem hidx)

theorem specCost_nonneg (cfg : Config) (g : List ℤ) (hv : ValidGenome cfg g)
    (hC : ∀ c ∈ cfg.cropCosts, 0 ≤ c) : 0 ≤ specCost cfg g := by
  unfold specCost
  apply List.sum_nonneg
  intro q hq
  obtain ⟨x, hx, rfl⟩ := List.mem_map.mp hq
  obtain ⟨hx0, hxlt⟩ := hv.2 x hx
  have hidx : x.toNat < cfg.cropCosts.length := by
    have : cfg.nCrops = cfg.cropCosts.length := rfl
    omega
  rw [List.getD_eq_getElem _ _ hidx]
  exact hC _ (List.getElem_mem hidx)

theorem specCost_le (cfg : Config) (g : List ℤ) (hv : ValidGenome cfg g) :
    specCost cfg g ≤ MAX_COST cfg := by
  unfold specCost MAX_COST
  have hstep : (g.map fun x => cfg.cropCosts.getD x.toNat 0).sum
      ≤ (g.map fun _ => npMax cfg.cropCosts).sum := by
    apply List.sum_le_sum
    intro x hx
    obtain ⟨hx0, hxlt⟩ := hv.2 x hx
    have hidx : x.toNat < cfg.cropCosts.length := by
      have : cfg.nCrops = cfg.cropCosts.length := rfl
      omega
    rw [List.getD_eq_getElem _ _ hidx]
    exact le_npMax_of_mem cfg.cropCosts _ (List.getElem_mem hidx)
  have hconst : (g.map fun _ => npMax cfg.cropCosts).sum
      = (cfg.nFields : ℚ) * npMax cfg.cropCosts := by
    rw [List.map_const', List.sum_replicate, nsmul_eq_mul, hv.1]
  rw [hconst] at hstep
  exact hstep

/-- C10: every Individual built from a valid genome has
0 <= totalYield <= maxYield and 0 <= totalCost <= maxCost (each field's
chosen yield is at most that field's maximum; each chosen cost is at most
the maximum single-crop cost), hence its fitness lies in the closed
interval [-beta, alpha]. -/
theorem fitness_in_range (cfg : Config) (hrows : RowsWide cfg) (g : List ℤ)
    (hv : ValidGenome cfg g)
    (hY : ∀ row ∈ cfg.fieldYields, ∀ y ∈ row, 0 ≤ y)
    (hC : ∀ c ∈ cfg.cropCosts, 0 ≤ c)
    (ha : 0 ≤ cfg.alpha) (hb : 0 ≤ cfg.beta)
    (hmy : 0 < MAX_YIELD cfg) (hmc : 0 < MAX_COST cfg)
    (ind : Individual) (hmk : Individual.make cfg g = some ind) :
    0 ≤ ind.total_yield ∧ ind.total_yield ≤ MAX_YIELD cfg ∧
    0 ≤ ind.total_cost ∧ ind.total_cost ≤ MAX_COST cfg ∧
    -cfg.beta ≤ ind.fitness ∧ ind.fitness ≤ cfg.alpha := by
  rw [make_eq_of_valid cfg hrows g hv] at hmk
  cases Option.some.inj hmk
  have hy0 := specYield_nonneg cfg hrows g hv hY
  have hy1 := specYield_le cfg hrows g hv
  have hc0 := specCost_nonneg cfg g hv hC
  have hc1 := specCost_le cfg g hv
  have hq1a : 0 ≤ specYield cfg g / MAX_YIELD cfg := div_nonneg hy0 hmy.le
  have hq1b : specYield cfg g / MAX_YIELD cfg ≤ 1 := (div_le_one hmy).mpr hy1
  have hq2a : 0 ≤ specCost cfg g / MAX_COST cfg := div_nonneg hc0 hmc.le
  have hq2b : specCost cfg g / MAX_COST cfg ≤ 1 := (div_le_one hmc).mpr hc1
  have hm1 : cfg.alpha * (specYield cfg g / MAX_YIELD cfg) ≤ cfg.alpha * 1 :=
    mul_le_mul_of_nonneg_left hq1b ha
  have hm2 : 0 ≤ cfg.beta * (specCost cfg g / MAX_COST cfg) := mul_nonneg hb hq2a
  have hm3 : 0 ≤ cfg.alpha * (specYield cfg g / MAX_YIELD cfg) := mul_nonneg ha hq1a
  have hm4 : cfg.beta * (specCost cfg g / MAX_COST cfg) ≤ cfg.beta * 1 :=
    mul_le_mul_of_nonneg_left hq2b hb
  refine ⟨hy0, hy1, hc0, hc1, ?_, ?_⟩
  · show -cfg.beta ≤ cfg.alpha * (specYield cfg g / MAX_YIELD cfg)
      - cfg.beta * (specCost cfg g / MAX_COST cfg)
    linarith
  · show cfg.alpha * (specYield cfg g / MAX_YIELD cfg)
      - cfg.beta * (specCost cfg g / MAX_COST cfg) ≤ cfg.alpha
    linarith

unseal Rat.add Rat.mul Rat.inv Rat.sub Rat.ofScientific in
/-- Witness for C10 at the shipped tables and a concrete valid genome. -/
theorem fitness_in_range_witness :
    RowsWide srcConfig ∧ ValidGenome srcConfig demoGenome ∧
    (∀ row ∈ srcConfig.fieldYields, ∀ y ∈ row, 0 ≤ y) ∧
    (∀ c ∈ srcConfig.cropCosts, 0 ≤ c) ∧
    0 ≤ srcConfig.alpha ∧ 0 ≤ srcConfig.beta ∧
    0 < MAX_YIELD srcConfig ∧ 0 < MAX_COST srcConfig ∧
    Individual.make srcConfig demoGenome = some demoInd ∧
    (0 ≤ demoInd.total_yield ∧ demoInd.total_yield ≤ MAX_YIELD srcConfig ∧
      0 ≤ demoInd.total_cost ∧ demoInd.total_cost ≤ MAX_COST srcConfig ∧
      -srcConfig.beta ≤ demoInd.fitness ∧ demoInd.fitness ≤ srcConfig.alpha) :=
  ⟨by decide, by decide, by decide, by decide, by decide, by decide, by decide,
    by decide, by decide,
    fitness_in_range srcConfig (by decide) demoGenome (by decide) (by decide)
      (by decide) (by decide) (by decide) (by decide) (by decide) demoInd (by decide)⟩

theorem readArr_frame (h : Heap) (g g2 : List ℤ) (addr : ℕ) (ha : addr < h.length) :
    readArr (writeArr (h ++ [g]) h.length g2) addr = readArr h addr := by
  unfold readArr writeArr
  rw [List.getD_eq_getElem?_getD, List.getD_eq_getElem?_getD,
    List.getElem?_set_ne (by omega), List.getElem?_append_left ha]

/-- C8: each mutation operator, run over the arena, copies the genome
before writing, so after a successful call the array the input individual
points at is bit-for-bit unchanged, and the returned Individual is a newly
constructed one holding the fresh address (never the input's); the input's
scalar fitness, total_yield and total_cost fields are immutable record
fields that the operators never rebind. -/
theorem mutation_preserves_input (cfg : Config) (h : Heap) (ind : IndividualH)
    (r1 r2 s1 s2 t1 t2 : ℕ) (hin : ind.genomeAddr < h.length)
    (o1 : IndividualH) (ha : Heap) (o2 : IndividualH) (hb : Heap)
    (o3 : IndividualH) (hc : Heap)
    (e1 : random_resetH cfg h ind r1 r2 = some (o1, ha))
    (e2 : swap_mutationH cfg h ind s1 s2 = some (o2, hb))
    (e3 : inversion_mutationH cfg h ind t1 t2 = some (o3, hc)) :
    (readArr ha ind.genomeAddr = readArr h ind.genomeAddr ∧
      o1.genomeAddr = h.length ∧ o1.genomeAddr ≠ ind.genomeAddr) ∧
    (readArr hb ind.genomeAddr = readArr h ind.genomeAddr ∧
      o2.genomeAddr = h.length ∧ o2.genomeAddr ≠ ind.genomeAddr) ∧
    (readArr hc ind.genomeAddr = readArr h ind.genomeAddr ∧
      o3.genomeAddr = h.length ∧ o3.genomeAddr ≠ ind.genomeAddr) := by
  refine ⟨?_, ?_, ?_⟩
  · simp only [random_resetH, Option.bind_eq_bind, Option.bind_eq_some] at e1
    obtain ⟨pos, -, e1⟩ := e1
    obtain ⟨v, -, e1⟩ := e1
    split at e1
    · rw [Option.bind_eq_some] at e1
      obtain ⟨fit, -, e1⟩ := e1
      have hp := Option.some.inj e1
      rw [Prod.mk.injEq] at hp
      obtain ⟨ho, hh⟩ := hp
      subst hh
      subst ho
      refine ⟨readArr_frame h _ _ _ hin, rfl, ?_⟩
      show h.length ≠ ind.genomeAddr
      omega
    · simp at e1
  · simp only [swap_mutationH, Option.bind_eq_bind, Option.bind_eq_some] at e2
    obtain ⟨ij, -, e2⟩ := e2
    obtain ⟨gi, -, e2⟩ := e2
    obtain ⟨gj, -, e2⟩ := e2
    obtain ⟨fit, -, e2⟩ := e2
    have hp := Option.some.inj e2
    rw [Prod.mk.injEq] at hp
    obtain ⟨ho, hh⟩ := hp
    subst hh
    subst ho
    refine ⟨readArr_frame h _ _ _ hin, rfl, ?_⟩
    show h.length ≠ ind.genomeAddr
    omega
  · simp only [inversion_mutationH, Option.bind_eq_bind, Option.bind_eq_some] at e3
    obtain ⟨ij, -, e3⟩ := e3
    obtain ⟨fit, -, e3⟩ := e3
    have hp := Option.some.inj e3
    rw [Prod.mk.injEq] at hp
    obtain ⟨ho, hh⟩ := hp
    subst hh
    subst ho
    refine ⟨readArr_frame h _ _ _ hin, rfl, ?_⟩
    show h.length ≠ ind.genomeAddr
    omega

unseal Rat.add Rat.mul Rat.inv Rat.sub Rat.ofScientific in
/-- Witness for C8: on the concrete arena all three operators succeed and
leave the input's array untouched while returning fresh individuals. -/
theorem mutation_preserves_input_witness :
    indH0.genomeAddr < heap0.length ∧
    ((readArr rrOut.2 indH0.genomeAddr = readArr heap0 indH0.genomeAddr ∧
        (rrOut.1).genomeAddr = heap0.length ∧
        (rrOut.1).genomeAddr ≠ indH0.genomeAddr) ∧
      (readArr swOut.2 indH0.genomeAddr = readArr heap0 indH0.genomeAddr ∧
        (swOut.1).genomeAddr = heap0.length ∧
        (swOut.1).genomeAddr ≠ indH0.genomeAddr) ∧
      (readArr invOut.2 indH0.genomeAddr = readArr heap0 indH0.genomeAddr ∧
        (invOut.1).genomeAddr = heap0.length ∧
        (invOut.1).genomeAddr ≠ indH0.genomeAddr)) :=
  ⟨by decide,
    mutation_preserves_input srcConfig heap0 indH0 0 0 0 0 0 0 (by decide)
      rrOut.1 rrOut.2 swOut.1 swOut.2 invOut.1 invOut.2
      (by decide) (by decide) (by decide)⟩
